import Mathlib

/-!
Verification of the BlackTek console subsystem (src/src/console.h).

The header implements an asynchronous console/log sink:
a bounded lock-free multi-producer/single-consumer ring buffer of
messages, a worker thread that drains it and dispatches each message to
the terminal and/or a log file, and an Initialize/Shutdown lifecycle.

The development below is a shallow embedding of that code for *sequential*
executions (single producer and single consumer acting one at a time on
explicit state), which is the setting of the functional claims verified
here.  Machine integers (size_t, intptr_t on a 64-bit target) are
modelled as Nat with explicit reduction modulo 2^64, and the signed
difference computed by the buffer is modelled exactly as two's-complement
conversion and wrapping subtraction.
-/

set_option maxHeartbeats 1000000

namespace Console

/-- MessageType from console.h: which sinks a message is destined for. -/
inductive MessageType : Type where
  | Print
  | Log
  | LogAndPrint
  | StyledPrint
  | LogAndStyledPrint
  | DebugPrint
  | DebugLog
  | DebugLogAndPrint
deriving DecidableEq, Repr

/-- PriorityType from console.h: carried on every message, never consulted
by the dispatcher. -/
inductive PriorityType : Type where
  | None
  | Info
  | Warning
  | Error
deriving DecidableEq, Repr

/-- Model of fmt::text_style: an optional foreground colour, an optional
background colour and an emphasis bitmask.  Only its identity matters to
the claims; the renderer treats it as opaque. -/
structure text_style : Type where
  foreground : Option Nat := none
  background : Option Nat := none
  emphasis : Nat := 0
deriving DecidableEq, Repr

/-- Message from console.h, with the C++ member defaults. -/
structure Message : Type where
  text : String
  msg_type : MessageType := MessageType.Print
  priority : PriorityType := PriorityType.None
  styled : Bool := false
  primary_style : text_style := {}
  secondary_style : Option text_style := none
deriving DecidableEq, Repr

instance : Inhabited Message := ⟨{ text := "" }⟩

/-- BUFFER_SIZE from console.h. -/
def BUFFER_SIZE : Nat := 4096

/-- BUFFER_MASK from console.h. -/
def BUFFER_MASK : Nat := BUFFER_SIZE - 1

/-- The modulus of size_t on the 64-bit target the header is built for;
all position/sequence arithmetic in the buffer wraps at this modulus. -/
def WORD : Nat := 2 ^ 64

/-- Two's-complement reading of a size_t value as intptr_t
(the C++ code casts: (intptr_t)seq, (intptr_t)pos). -/
def toSigned (x : Nat) : Int :=
  if x < 2 ^ 63 then (x : Int) else (x : Int) - 2 ^ 64

/-- Wrap an integer into the intptr_t range, two's complement. -/
def wrapSigned (z : Int) : Int :=
  (z + 2 ^ 63) % 2 ^ 64 - 2 ^ 63

/-- The value of intptr_t diff = (intptr_t)seq - (intptr_t)pos computed by
Push/Pop: two's-complement conversion of both operands followed by
wrapping signed subtraction. -/
def signedDiff (seq pos : Nat) : Int :=
  wrapSigned (toSigned seq - toSigned pos)

/-- A ring-buffer slot: a sequence counter paired with a message. -/
structure Slot : Type where
  sequence : Nat
  message : Message
deriving DecidableEq, Repr

/-- The RingBuffer state: the slot array (total function on Nat; the code
only ever indexes it at pos & BUFFER_MASK < BUFFER_SIZE) and the head and
tail positions (size_t values). -/
structure RingBuffer : Type where
  buffer : Nat → Slot
  head : Nat
  tail : Nat

/-- The RingBuffer constructor: every slot's sequence is initialised to
its index, head and tail to 0, messages default-constructed. -/
def RingBuffer.init : RingBuffer :=
  { buffer := fun i => { sequence := i, message := default }
    head := 0
    tail := 0 }

/-- RingBuffer::Push for a sequential execution.  Sequentially the CAS on
head always succeeds on the first attempt (no other producer moves head),
so the retry loop runs its body once: diff = 0 stores the message, bumps
head and publishes sequence = pos + 1; diff < 0 reports the buffer full
without touching any state.  In the diff > 0 branch the code reloads head
and retries, but sequentially head is unchanged, so that branch loops
forever; it is modelled as none (divergence) and proved unreachable from
every state reachable sequentially. -/
def RingBuffer.Push (rb : RingBuffer) (msg : Message) : Option (RingBuffer × Bool) :=
  let pos := rb.head
  let slot := rb.buffer (pos &&& BUFFER_MASK)
  let diff := signedDiff slot.sequence pos
  if diff = 0 then
    some ({ rb with
            head := (pos + 1) % WORD
            buffer := Function.update rb.buffer (pos &&& BUFFER_MASK)
                { sequence := (pos + 1) % WORD, message := msg } },
          true)
  else if diff < 0 then
    some (rb, false)
  else
    none

/-- RingBuffer::Pop: if the slot at tail holds a published message for
this generation (sequence = pos + 1), advance tail, move the message out
and free the slot for the next generation (sequence = pos + BUFFER_SIZE);
otherwise report the buffer empty.  The Bool-and-out-parameter interface
is modelled as an Option Message result. -/
def RingBuffer.Pop (rb : RingBuffer) : RingBuffer × Option Message :=
  let pos := rb.tail
  let slot := rb.buffer (pos &&& BUFFER_MASK)
  let diff := signedDiff slot.sequence ((pos + 1) % WORD)
  if diff = 0 then
    ({ rb with
       tail := (pos + 1) % WORD
       buffer := Function.update rb.buffer (pos &&& BUFFER_MASK)
           { slot with sequence := (pos + BUFFER_SIZE) % WORD } },
     some slot.message)
  else
    (rb, none)

/-- Push a list of messages in order (the sequential single-producer use
of Push); returns the final state and the list of Push results, or none
if some Push diverges. -/
def pushAll : RingBuffer → List Message → Option (RingBuffer × List Bool)
  | rb, [] => some (rb, [])
  | rb, m :: ms => do
      let (rb1, ok) ← rb.Push m
      let (rb2, oks) ← pushAll rb1 ms
      pure (rb2, ok :: oks)

/-- Pop n times in sequence, collecting the results. -/
def popN : RingBuffer → Nat → RingBuffer × List (Option Message)
  | rb, 0 => (rb, [])
  | rb, n + 1 =>
      let r := rb.Pop
      let rest := popN r.1 n
      (rest.1, r.2 :: rest.2)

/-! ### Characterisation of sequential states reached from a fresh buffer

freshPushedPopped msgs t is the buffer state after pushing the list msgs
(of length at most BUFFER_SIZE) into a freshly constructed buffer and
then popping t of them, for t at most msgs.length. -/

/-- State after pushing msgs into a fresh buffer and popping the first t. -/
def freshPushedPopped (msgs : List Message) (t : Nat) : RingBuffer :=
  { buffer := fun i =>
      if i < msgs.length then
        { sequence := if i < t then i + BUFFER_SIZE else i + 1
          message := msgs.getD i default }
      else { sequence := i, message := default }
    head := msgs.length
    tail := t }

/-- State after pushing msgs into a fresh buffer (no pops yet). -/
def freshPushed (msgs : List Message) : RingBuffer := freshPushedPopped msgs 0

/-- The state after the buffer has been filled (4096 pushes), one message
popped, and one more message pushed into the freed slot (wrapping to the
second generation of slot 0). -/
def wrapState (msgs : List Message) (m : Message) : RingBuffer :=
  { buffer := Function.update (freshPushedPopped msgs 1).buffer 0
      { sequence := 4097, message := m }
    head := 4097
    tail := 1 }

/-! ### The drain worker's dispatch (console.h, Worker)

The worker's observable side effects are modelled as an ordered list of
sink events: terminal renders (each newline-terminated, matching the
trailing print of a newline in both branches of printStyled and the
println of printPlain) and log-file line appends. -/

/-- One newline-terminated terminal render. -/
inductive TermEvent : Type where
  | plain (text : String)
  | styledWhole (primary : text_style) (text : String)
  | styledNested (primary secondary : text_style) (text : String)
deriving DecidableEq, Repr

/-- One observable side effect of dispatching a message: a terminal
render or a log-file append. -/
inductive SinkEvent : Type where
  | term (e : TermEvent)
  | log (line : String)
deriving DecidableEq, Repr

/-- Worker's printStyled lambda: with a secondary style present, print
the text styled with the secondary style nested inside a primary-styled
print; otherwise print the whole text in the primary style. -/
def renderStyled (m : Message) : TermEvent :=
  match m.secondary_style with
  | some s => TermEvent.styledNested m.primary_style s m.text
  | none => TermEvent.styledWhole m.primary_style m.text

/-- The condition msg.styled ? printStyled() : printPlain() used by the
Print / LogAndPrint / DebugPrint / DebugLogAndPrint cases. -/
def renderTerm (m : Message) : TermEvent :=
  if m.styled then renderStyled m else TermEvent.plain m.text

/-- Worker's logToFile lambda: append the text as a line if the log
stream is open, otherwise do nothing (silently). -/
def logEvents (logOpen : Bool) (m : Message) : List SinkEvent :=
  if logOpen then [SinkEvent.log m.text] else []

/-- The worker's switch on msg_type (the identical switch appears twice
in the source, in the main loop and in the final drain pass): the ordered
side effects of dispatching one message, given whether the log stream is
open. -/
def dispatchMessage (logOpen : Bool) (m : Message) : List SinkEvent :=
  match m.msg_type with
  | MessageType.Print => [SinkEvent.term (renderTerm m)]
  | MessageType.Log => logEvents logOpen m
  | MessageType.LogAndPrint => SinkEvent.term (renderTerm m) :: logEvents logOpen m
  | MessageType.StyledPrint => [SinkEvent.term (renderStyled m)]
  | MessageType.LogAndStyledPrint => SinkEvent.term (renderStyled m) :: logEvents logOpen m
  | MessageType.DebugPrint => [SinkEvent.term (renderTerm m)]
  | MessageType.DebugLog => logEvents logOpen m
  | MessageType.DebugLogAndPrint => SinkEvent.term (renderTerm m) :: logEvents logOpen m

/-- The worker's drain loop, while (queue.Pop(msg)) dispatch(msg):
pops and dispatches until Pop fails.  The unbounded while loop is
modelled with explicit fuel; the Bool result records whether the loop
exited because Pop failed (true) rather than because the fuel ran out,
and is proved true for every sufficiently large fuel in the states the
claims are about. -/
def drainLoop (logOpen : Bool) : Nat → RingBuffer → RingBuffer × List SinkEvent × Bool
  | 0, rb => (rb, [], false)
  | fuel + 1, rb =>
      match rb.Pop with
      | (rb1, some m) =>
          let r := drainLoop logOpen fuel rb1
          (r.1, dispatchMessage logOpen m ++ r.2.1, r.2.2)
      | (rb1, none) => (rb1, [], true)

/-! ### Lifecycle (console.h, Initialize / Shutdown)

The process-wide singletons (running flag, log stream, worker handle,
queue) are modelled as one explicit state record.  The fields
workerStarts, logOpens and shutdownSeqs are instrumentation counting how
many times a worker thread was started, the log file was opened, and the
stop/notify/join/close sequence was performed; events accumulates the
side effects dispatched by the worker. -/

structure ConsoleState : Type where
  running : Bool
  logOpen : Bool
  queue : RingBuffer
  events : List SinkEvent
  workerStarts : Nat
  logOpens : Nat
  shutdownSeqs : Nat

/-- Initialize: running.exchange(true); if it was already true, return
immediately (touching nothing); otherwise open the log file in append
mode and start the worker thread. -/
def Initialize (s : ConsoleState) : ConsoleState :=
  if s.running then s
  else
    { s with
      running := true
      logOpen := true
      logOpens := s.logOpens + 1
      workerStarts := s.workerStarts + 1 }

/-- Shutdown: running.exchange(false); if it was already false, return
immediately.  Otherwise request the worker's stop, bump and notify the
wakeup counter, and join the worker: the joined worker's main loop exits
and its final unconditional drain pass runs (with the log stream still
open) before join returns; only after that is the log stream closed.
The final drain is the sequential content of that stop/join protocol. -/
def Shutdown (fuel : Nat) (s : ConsoleState) : ConsoleState :=
  if s.running then
    let r := drainLoop s.logOpen fuel s.queue
    { s with
      running := false
      queue := r.1
      events := s.events ++ r.2.1
      logOpen := false
      shutdownSeqs := s.shutdownSeqs + 1 }
  else s

/-! ### Producer facade (console.h, Print / Log / ... / DebugLogAndPrint)

Each public entry point constructs a Message and submits it through
PushAndNotify; the Message each one enqueues is modelled here. -/

/-- Print(text). -/
def PrintMsg (text : String) : Message :=
  { text := text, msg_type := MessageType.Print }

/-- Log(text). -/
def LogMsg (text : String) : Message :=
  { text := text, msg_type := MessageType.Log }

/-- LogAndPrint(text). -/
def LogAndPrintMsg (text : String) : Message :=
  { text := text, msg_type := MessageType.LogAndPrint }

/-- StyledPrint(text, primaryStyle). -/
def StyledPrintMsg (text : String) (primaryStyle : text_style) : Message :=
  { text := text
    msg_type := MessageType.StyledPrint
    priority := PriorityType.None
    styled := true
    primary_style := primaryStyle
    secondary_style := none }

/-- StyledPrint(text, primaryStyle, secondaryStyle). -/
def StyledPrintMsg2 (text : String) (primaryStyle secondaryStyle : text_style) : Message :=
  { text := text
    msg_type := MessageType.StyledPrint
    priority := PriorityType.None
    styled := true
    primary_style := primaryStyle
    secondary_style := some secondaryStyle }

/-- LogAndStyledPrint(text, primaryStyle). -/
def LogAndStyledPrintMsg (text : String) (primaryStyle : text_style) : Message :=
  { text := text
    msg_type := MessageType.LogAndStyledPrint
    priority := PriorityType.None
    styled := true
    primary_style := primaryStyle
    secondary_style := none }

/-- fmt::fg(fmt::color::cyan) | fmt::emphasis::bold, the hardcoded style
of the Debug entry points (cyan foreground, bold emphasis). -/
def debugStyle : text_style :=
  { foreground := some 0x00FFFF, emphasis := 1 }

/-- DebugPrint(text): forwards to StyledPrint(text, cyan-bold). -/
def DebugPrintMsg (text : String) : Message :=
  StyledPrintMsg text debugStyle

/-- DebugLog(text). -/
def DebugLogMsg (text : String) : Message :=
  { text := text
    msg_type := MessageType.DebugLog
    priority := PriorityType.None
    styled := false }

/-- DebugLogAndPrint(text): forwards to LogAndStyledPrint(text, cyan-bold). -/
def DebugLogAndPrintMsg (text : String) : Message :=
  LogAndStyledPrintMsg text debugStyle

/-- The delivery-kind table as the spec states it, written independently
of the code's switch for comparison: which terminal render (if any) and
which log append (if any) each delivery kind produces, terminal render
first. -/
def specDispatch (m : Message) : List SinkEvent :=
  let styledRender : TermEvent :=
    match m.secondary_style with
    | some s => TermEvent.styledNested m.primary_style s m.text
    | none => TermEvent.styledWhole m.primary_style m.text
  let flagRender : TermEvent :=
    if m.styled then styledRender else TermEvent.plain m.text
  match m.msg_type with
  | MessageType.Print => [SinkEvent.term flagRender]
  | MessageType.Log => [SinkEvent.log m.text]
  | MessageType.LogAndPrint => [SinkEvent.term flagRender, SinkEvent.log m.text]
  | MessageType.StyledPrint => [SinkEvent.term styledRender]
  | MessageType.LogAndStyledPrint => [SinkEvent.term styledRender, SinkEvent.log m.text]
  | MessageType.DebugPrint => [SinkEvent.term flagRender]
  | MessageType.DebugLog => [SinkEvent.log m.text]
  | MessageType.DebugLogAndPrint => [SinkEvent.term flagRender, SinkEvent.log m.text]

/-- A second concrete style used by witnesses. -/
def witnessStyle : text_style := { emphasis := 2 }

/-- Concrete styled message without a secondary style. -/
def witnessMsgPrimary : Message :=
  { text := "x"
    styled := true
    primary_style := debugStyle }

/-- Concrete styled message with a secondary style. -/
def witnessMsgBoth : Message :=
  { text := "x"
    styled := true
    primary_style := debugStyle
    secondary_style := some witnessStyle }

/-- Selector for terminal events among sink events. -/
def isTermEvent : SinkEvent → Bool
  | SinkEvent.term _ => true
  | SinkEvent.log _ => false

/-- Concrete initialized console state holding one queued message. -/
def witnessConsole : ConsoleState :=
  { running := true
    logOpen := true
    queue := freshPushed [PrintMsg "a"]
    events := []
    workerStarts := 1
    logOpens := 1
    shutdownSeqs := 0 }

/-! ### Claim C10: a sequential-execution invariant -/

/-- One sequential operation on the queue. -/
inductive ConsoleOp : Type where
  | push (m : Message)
  | pop

/-- Apply one operation to the buffer state (for a diverging Push,
provably unreachable, the state is kept). -/
def stepOp (rb : RingBuffer) : ConsoleOp → RingBuffer
  | ConsoleOp.push m =>
      match rb.Push m with
      | some r => r.1
      | none => rb
  | ConsoleOp.pop => (rb.Pop).1

/-- Run a list of operations, first operation first, on a freshly
constructed buffer. -/
def runOps (ops : List ConsoleOp) : RingBuffer :=
  ops.foldl stepOp RingBuffer.init

/-- The unique position p with T ≤ p < T + BUFFER_SIZE that is congruent
to i modulo BUFFER_SIZE: the current generation's position for slot i
when the abstract tail is T. -/
def posFor (T i : Nat) : Nat :=
  T + ((i + BUFFER_SIZE - T % BUFFER_SIZE) % BUFFER_SIZE)

/-- The slot invariant: slot i stores, modulo 2^64, its current
generation position + 1 if that position has been pushed but not popped,
and the bare position otherwise. -/
def slotOk (H T i : Nat) (s : Slot) : Prop :=
  if posFor T i < H then s.sequence = (posFor T i + 1) % WORD
  else s.sequence = posFor T i % WORD

/-- The sequential ring-buffer invariant: abstract unwrapped counters H
(successful pushes) and T (successful pops) with T ≤ H ≤ T + BUFFER_SIZE
that reduce to the stored head and tail, and every slot satisfying
slotOk. -/
def Inv (rb : RingBuffer) : Prop :=
  ∃ H T : Nat, T ≤ H ∧ H ≤ T + BUFFER_SIZE ∧
    rb.head = H % WORD ∧ rb.tail = T % WORD ∧
    ∀ i : Nat, i < BUFFER_SIZE → slotOk H T i (rb.buffer i)

/-- The slot-sequence part of C10 exactly as claimed: every slot's
sequence counter equals its index plus a whole number of completed
generations (a multiple of BUFFER_SIZE). -/
def claimedSlotSeqInv (rb : RingBuffer) : Prop :=
  ∀ i : Nat, i < BUFFER_SIZE →
    ∃ g : Nat, (rb.buffer i).sequence = i + g * BUFFER_SIZE

/-! ### Arithmetic helper lemmas -/

theorem land_mask (p : Nat) : p &&& BUFFER_MASK = p % BUFFER_SIZE := by
  have h : BUFFER_MASK = 2 ^ 12 - 1 := by norm_num [BUFFER_MASK, BUFFER_SIZE]
  have h2 : BUFFER_SIZE = 2 ^ 12 := by norm_num [BUFFER_SIZE]
  rw [h, h2, Nat.and_pow_two_sub_one_eq_mod]

theorem signedDiff_eq (x y : Nat) (h1 : (x : Int) - y < 2 ^ 63)
    (h2 : (y : Int) - x ≤ 2 ^ 63) :
    signedDiff (x % WORD) (y % WORD) = (x : Int) - y := by
  unfold signedDiff toSigned wrapSigned WORD
  have hx : ((x % 2 ^ 64 : Nat) : Int) = (x : Int) % 2 ^ 64 := by
    push_cast
    ring
  have hy : ((y % 2 ^ 64 : Nat) : Int) = (y : Int) % 2 ^ 64 := by
    push_cast
    ring
  split <;> split <;> omega

theorem signedDiff_self (x : Nat) : signedDiff x x = 0 := by
  unfold signedDiff wrapSigned
  simp

/-- Specialisation of signedDiff_eq to operands already below the size_t
modulus. -/
theorem signedDiff_eq_of_lt (x y : Nat) (hx : x < WORD) (hy : y < WORD)
    (h1 : (x : Int) - y < 2 ^ 63) (h2 : (y : Int) - x ≤ 2 ^ 63) :
    signedDiff x y = (x : Int) - y := by
  have := signedDiff_eq x y h1 h2
  rwa [Nat.mod_eq_of_lt hx, Nat.mod_eq_of_lt hy] at this

theorem freshPushed_nil : freshPushed [] = RingBuffer.init := by
  unfold freshPushed freshPushedPopped RingBuffer.init
  simp

theorem getD_append_lt {α : Type} (l : List α) (a d : α) (i : Nat)
    (h : i < l.length) : (l ++ [a]).getD i d = l.getD i d := by
  induction l generalizing i with
  | nil => simp at h
  | cons x xs ih =>
      cases i with
      | zero => rfl
      | succ j =>
          simp only [List.length_cons] at h
          exact ih j (by omega)

theorem getD_append_self {α : Type} (l : List α) (a d : α) :
    (l ++ [a]).getD l.length d = a := by
  induction l with
  | nil => rfl
  | cons x xs ih => exact ih

theorem Push_freshPushed (msgs : List Message) (m : Message)
    (h : msgs.length < BUFFER_SIZE) :
    (freshPushed msgs).Push m = some (freshPushed (msgs ++ [m]), true) := by
  have hBS : BUFFER_SIZE = 4096 := rfl
  have hW : WORD = 2 ^ 64 := rfl
  have hk : msgs.length < 4096 := by omega
  unfold RingBuffer.Push freshPushed freshPushedPopped
  simp only [land_mask, hBS]
  rw [Nat.mod_eq_of_lt hk]
  simp only [lt_irrefl, if_false, signedDiff_self, if_pos]
  have hmod : (msgs.length + 1) % WORD = msgs.length + 1 :=
    Nat.mod_eq_of_lt (by rw [hW]; omega)
  simp only [hmod, List.length_append, List.length_cons, List.length_nil,
    Option.some.injEq, Prod.mk.injEq, RingBuffer.mk.injEq]
  refine ⟨⟨?_, trivial, trivial⟩, trivial⟩
  funext i
  rcases lt_trichotomy i msgs.length with hi | hi | hi
  · rw [Function.update_noteq (by omega)]
    simp only [if_pos hi, if_pos (show i < msgs.length + 1 by omega)]
    rw [getD_append_lt _ _ _ _ hi]
  · subst hi
    rw [Function.update_same]
    simp only [if_pos (show msgs.length < msgs.length + 1 by omega)]
    rw [getD_append_self]
    simp [Nat.not_lt_zero]
  · rw [Function.update_noteq (by omega)]
    simp only [if_neg (show ¬ i < msgs.length by omega),
      if_neg (show ¬ i < msgs.length + 1 by omega)]

theorem Pop_freshPushedPopped (msgs : List Message) (t : Nat)
    (hlen : msgs.length ≤ BUFFER_SIZE) (ht : t < msgs.length) :
    (freshPushedPopped msgs t).Pop =
      (freshPushedPopped msgs (t + 1), some (msgs.getD t default)) := by
  have hBS : BUFFER_SIZE = 4096 := rfl
  have hW : WORD = 2 ^ 64 := rfl
  have ht4 : t < 4096 := by omega
  unfold RingBuffer.Pop freshPushedPopped
  simp only [land_mask, hBS]
  rw [Nat.mod_eq_of_lt ht4]
  simp only [if_pos ht, lt_irrefl, if_false]
  have hm1 : (t + 1) % WORD = t + 1 := Nat.mod_eq_of_lt (by rw [hW]; omega)
  rw [hm1, signedDiff_self]
  simp only [if_pos]
  have hm2 : (t + 4096) % WORD = t + 4096 := Nat.mod_eq_of_lt (by rw [hW]; omega)
  simp only [hm2, Prod.mk.injEq, RingBuffer.mk.injEq]
  refine ⟨⟨?_, trivial, trivial⟩, trivial⟩
  funext i
  rcases lt_trichotomy i t with hi | hi | hi
  · rw [Function.update_noteq (by omega)]
    simp only [if_pos (show i < msgs.length by omega), if_pos hi,
      if_pos (show i < t + 1 by omega)]
  · subst hi
    rw [Function.update_same]
    simp only [if_pos ht, lt_irrefl, if_false, if_pos (show i < i + 1 by omega)]
  · rw [Function.update_noteq (by omega)]
    by_cases hil : i < msgs.length
    · simp only [if_pos hil, if_neg (show ¬ i < t by omega),
        if_neg (show ¬ i < t + 1 by omega)]
    · simp only [if_neg hil]

theorem Pop_freshPushedPopped_empty (msgs : List Message)
    (hlen : msgs.length ≤ BUFFER_SIZE) :
    (freshPushedPopped msgs msgs.length).Pop =
      (freshPushedPopped msgs msgs.length, none) := by
  have hBS : BUFFER_SIZE = 4096 := rfl
  have hW : WORD = 2 ^ 64 := rfl
  unfold RingBuffer.Pop freshPushedPopped
  simp only [land_mask, hBS]
  have hm1 : (msgs.length + 1) % WORD = msgs.length + 1 :=
    Nat.mod_eq_of_lt (by rw [hW]; omega)
  rw [hm1]
  rcases Nat.lt_or_ge msgs.length 4096 with hlt | hge
  · rw [Nat.mod_eq_of_lt hlt]
    simp only [lt_irrefl, if_false]
    rw [signedDiff_eq_of_lt msgs.length (msgs.length + 1)
      (by rw [hW]; push_cast; omega) (by rw [hW]; push_cast; omega)
      (by push_cast; omega) (by push_cast; omega)]
    norm_num
  · have hlen4 : msgs.length = 4096 := by omega
    rw [hlen4]
    norm_num
    rw [signedDiff_eq_of_lt 4096 4097 (by rw [hW]; norm_num) (by rw [hW]; norm_num)
      (by norm_num) (by norm_num)]
    norm_num

theorem getD_eq_getElem {α : Type} (l : List α) (d : α) (i : Nat) (h : i < l.length) :
    l.getD i d = l[i] := by
  rw [List.getD_eq_getElem?_getD, List.getElem?_eq_getElem h]
  rfl

theorem drop_eq_getD_cons {α : Type} (l : List α) (d : α) (i : Nat) (h : i < l.length) :
    l.drop i = l.getD i d :: l.drop (i + 1) := by
  rw [getD_eq_getElem l d i h]
  exact List.drop_eq_getElem_cons h

theorem pushAll_freshPushed (rest : List Message) : ∀ pre : List Message,
    pre.length + rest.length ≤ BUFFER_SIZE →
    pushAll (freshPushed pre) rest =
      some (freshPushed (pre ++ rest), List.replicate rest.length true) := by
  induction rest with
  | nil => intro pre h; simp [pushAll]
  | cons m ms ih =>
      intro pre h
      have h1 : pre.length < BUFFER_SIZE := by
        simp only [List.length_cons] at h
        omega
      rw [pushAll, Push_freshPushed pre m h1]
      have h2 : (pre ++ [m]).length + ms.length ≤ BUFFER_SIZE := by
        simp only [List.length_append, List.length_cons, List.length_nil,
          List.length_cons] at h ⊢
        omega
      simp only [Option.bind_eq_bind, Option.some_bind]
      rw [ih (pre ++ [m]) h2]
      simp [List.append_assoc, List.replicate_succ]

theorem pushAll_init (msgs : List Message) (h : msgs.length ≤ BUFFER_SIZE) :
    pushAll RingBuffer.init msgs =
      some (freshPushed msgs, List.replicate msgs.length true) := by
  have := pushAll_freshPushed msgs [] (by simpa using h)
  rw [freshPushed_nil] at this
  simpa using this

theorem popN_freshPushedPopped (n : Nat) : ∀ t : Nat, ∀ msgs : List Message,
    msgs.length ≤ BUFFER_SIZE → t + n = msgs.length →
    popN (freshPushedPopped msgs t) n =
      (freshPushedPopped msgs msgs.length, (msgs.drop t).map some) := by
  induction n with
  | zero =>
      intro t msgs hlen hn
      have ht : t = msgs.length := by omega
      subst ht
      simp [popN, List.drop_length]
  | succ n ih =>
      intro t msgs hlen hn
      have ht : t < msgs.length := by omega
      rw [popN, Pop_freshPushedPopped msgs t hlen ht]
      simp only
      rw [ih (t + 1) msgs hlen (by omega)]
      rw [drop_eq_getD_cons msgs default t ht]
      simp

theorem Push_freshPushed_full (msgs : List Message) (m : Message)
    (h : msgs.length = BUFFER_SIZE) :
    (freshPushed msgs).Push m = some (freshPushed msgs, false) := by
  unfold RingBuffer.Push freshPushed freshPushedPopped
  simp only [land_mask, h]
  norm_num [BUFFER_SIZE]
  rw [show signedDiff 1 4096 = -4095 by decide]
  norm_num

theorem Push_after_one_pop (msgs : List Message) (m : Message)
    (h : msgs.length = BUFFER_SIZE) :
    (freshPushedPopped msgs 1).Push m = some (wrapState msgs m, true) := by
  have hBS : BUFFER_SIZE = 4096 := rfl
  have hhead : (freshPushedPopped msgs 1).head = 4096 := by
    simp [freshPushedPopped, h, hBS]
  have hidx : (4096 : Nat) &&& BUFFER_MASK = 0 := by decide
  have hslot : (freshPushedPopped msgs 1).buffer 0 =
      { sequence := 4096, message := msgs.getD 0 default } := by
    simp [freshPushedPopped, h, hBS]
  have htail : (freshPushedPopped msgs 1).tail = 1 := rfl
  unfold RingBuffer.Push
  simp only [hhead, hidx, hslot, signedDiff_self, if_pos, htail]
  unfold wrapState
  norm_num [WORD, htail]

theorem Push_wrapState_full (msgs : List Message) (m m2 : Message)
    (h : msgs.length = BUFFER_SIZE) :
    (wrapState msgs m).Push m2 = some (wrapState msgs m, false) := by
  have hBS : BUFFER_SIZE = 4096 := rfl
  have hhead : (wrapState msgs m).head = 4097 := rfl
  have hidx : (4097 : Nat) &&& BUFFER_MASK = 1 := by decide
  have hslot : (wrapState msgs m).buffer 1 =
      { sequence := 2, message := msgs.getD 1 default } := by
    show Function.update (freshPushedPopped msgs 1).buffer 0
      { sequence := 4097, message := m } 1 = _
    rw [Function.update_noteq (by omega)]
    simp [freshPushedPopped, h, hBS]
  unfold RingBuffer.Push
  simp only [hhead, hidx, hslot]
  rw [show signedDiff 2 4097 = -4095 by decide]
  norm_num

/-- C1: starting from a freshly constructed RingBuffer, pushing any
sequence of k messages with k at most BUFFER_SIZE (4096) makes every Push
call succeed, a subsequent sequence of k Pop calls returns exactly those
k messages in push order, and the Pop after that returns failure. -/
theorem ringBuffer_push_pop_fifo (msgs : List Message)
    (h : msgs.length ≤ BUFFER_SIZE) :
    pushAll RingBuffer.init msgs =
      some (freshPushed msgs, List.replicate msgs.length true) ∧
    (popN (freshPushed msgs) msgs.length).2 = msgs.map some ∧
    ((popN (freshPushed msgs) msgs.length).1.Pop).2 = none := by
  have hq := popN_freshPushedPopped msgs.length 0 msgs h (by omega)
  refine ⟨pushAll_init msgs h, ?_, ?_⟩
  · unfold freshPushed
    rw [hq]
    simp
  · unfold freshPushed
    rw [hq]
    simp only
    rw [Pop_freshPushedPopped_empty msgs h]

/-- Witness for C1 at the concrete one-message input. -/
theorem ringBuffer_push_pop_fifo_witness :
    pushAll RingBuffer.init [{ text := "a" }] =
      some (freshPushed [{ text := "a" }], List.replicate 1 true) ∧
    (popN (freshPushed [{ text := "a" }]) 1).2 = [{ text := "a" }].map some ∧
    ((popN (freshPushed [{ text := "a" }]) 1).1.Pop).2 = none := by
  exact ringBuffer_push_pop_fifo [{ text := "a" }] (by norm_num [BUFFER_SIZE])

/-- C2: after exactly BUFFER_SIZE (4096) successful pushes and no pop,
the next Push returns false without modifying the state; after one
successful Pop, exactly one more Push succeeds, and the Push after that
again returns false without modifying the state. -/
theorem ringBuffer_full_backpressure (msgs : List Message) (m1 m2 m3 : Message)
    (h : msgs.length = BUFFER_SIZE) :
    pushAll RingBuffer.init msgs =
      some (freshPushed msgs, List.replicate BUFFER_SIZE true) ∧
    (freshPushed msgs).Push m1 = some (freshPushed msgs, false) ∧
    (freshPushed msgs).Pop =
      (freshPushedPopped msgs 1, some (msgs.getD 0 default)) ∧
    (freshPushedPopped msgs 1).Push m2 = some (wrapState msgs m2, true) ∧
    (wrapState msgs m2).Push m3 = some (wrapState msgs m2, false) := by
  refine ⟨?_, Push_freshPushed_full msgs m1 h, ?_,
    Push_after_one_pop msgs m2 h, Push_wrapState_full msgs m2 m3 h⟩
  · rw [pushAll_init msgs (by omega), h]
  · unfold freshPushed
    exact Pop_freshPushedPopped msgs 0 (by omega) (by rw [h]; norm_num [BUFFER_SIZE])

/-- Witness for C2 at a concrete 4096-message input. -/
theorem ringBuffer_full_backpressure_witness :
    (List.replicate 4096 ({ text := "a" } : Message)).length = BUFFER_SIZE ∧
    ((freshPushed (List.replicate 4096 ({ text := "a" } : Message))).Push
        { text := "b" } =
      some (freshPushed (List.replicate 4096 ({ text := "a" } : Message)), false)) := by
  have hlen : (List.replicate 4096 ({ text := "a" } : Message)).length = BUFFER_SIZE := by
    rw [List.length_replicate]
    rfl
  exact ⟨hlen, (ringBuffer_full_backpressure (List.replicate 4096 { text := "a" })
    { text := "b" } { text := "b" } { text := "b" } hlen).2.1⟩

/-! ### Claims C4, C5, C6, C8, C9: dispatch properties -/

/-- C4: with the log stream open, the side effects of dispatching any
message are exactly those of the delivery-kind table (Print and
DebugPrint render only, styled per the styled flag; Log and DebugLog
append only; LogAndPrint and DebugLogAndPrint do both; StyledPrint
renders styled only; LogAndStyledPrint renders styled and appends), and
whenever both sinks are requested the terminal render precedes the log
append. -/
theorem dispatch_table_correct (m : Message) :
    dispatchMessage true m = specDispatch m := by
  unfold dispatchMessage specDispatch renderTerm renderStyled logEvents
  cases m.msg_type <;> simp

/-- C5: a styled terminal render with no secondary style renders the
whole text in the primary style; with a secondary style present it
renders the text in the secondary style nested inside the primary
style's framing. -/
theorem styling_composition (m : Message) :
    (m.secondary_style = none →
      renderStyled m = TermEvent.styledWhole m.primary_style m.text) ∧
    (∀ s : text_style, m.secondary_style = some s →
      renderStyled m = TermEvent.styledNested m.primary_style s m.text) := by
  constructor
  · intro h
    unfold renderStyled
    rw [h]
  · intro s h
    unfold renderStyled
    rw [h]

/-- Witness for C5: both styling cases at concrete messages. -/
theorem styling_composition_witness :
    renderStyled witnessMsgPrimary = TermEvent.styledWhole debugStyle "x" ∧
    renderStyled witnessMsgBoth =
      TermEvent.styledNested debugStyle witnessStyle "x" := by
  constructor
  · exact (styling_composition witnessMsgPrimary).1 rfl
  · exact (styling_composition witnessMsgBoth).2 witnessStyle rfl

/-- C6: the dispatcher never reads the priority field: dispatching a
message with its priority replaced by any other priority produces
identical terminal and log side effects. -/
theorem dispatch_priority_independent (logOpen : Bool) (m : Message)
    (p : PriorityType) :
    dispatchMessage logOpen { m with priority := p } =
      dispatchMessage logOpen m := by
  unfold dispatchMessage renderTerm renderStyled logEvents
  cases m.msg_type <;> rfl

/-- C8: when the log stream is not open, every log append is silently
skipped while the terminal side effects are exactly those produced with
the log open; dispatch is total, so no error is raised and nothing is
visible to the producer. -/
theorem log_closed_skipped (m : Message) :
    dispatchMessage false m = (dispatchMessage true m).filter isTermEvent := by
  unfold dispatchMessage renderTerm renderStyled logEvents isTermEvent
  cases m.msg_type <;> simp [List.filter]

/-- C9: the Debug entry points forward to the styled/log paths of their
non-debug counterparts with the hardcoded cyan-bold style: DebugPrint
enqueues exactly the message StyledPrint(text, cyan-bold) enqueues,
DebugLogAndPrint exactly the message LogAndStyledPrint(text, cyan-bold)
enqueues, and DebugLog's message dispatches identically to Log's; there
is no distinct debug-priority routing. -/
theorem debug_variants_equiv (text : String) :
    DebugPrintMsg text = StyledPrintMsg text debugStyle ∧
    DebugLogAndPrintMsg text = LogAndStyledPrintMsg text debugStyle ∧
    ∀ logOpen : Bool,
      dispatchMessage logOpen (DebugLogMsg text) =
        dispatchMessage logOpen (LogMsg text) := by
  refine ⟨rfl, rfl, ?_⟩
  intro logOpen
  rfl

theorem drainLoop_freshPushedPopped (lo : Bool) (fuel : Nat) :
    ∀ t : Nat, ∀ msgs : List Message,
    msgs.length ≤ BUFFER_SIZE → t ≤ msgs.length → msgs.length - t < fuel →
    drainLoop lo fuel (freshPushedPopped msgs t) =
      (freshPushedPopped msgs msgs.length,
       (msgs.drop t).flatMap (fun m => dispatchMessage lo m), true) := by
  induction fuel with
  | zero =>
      intro t msgs h1 h2 h3
      omega
  | succ fuel ih =>
      intro t msgs h1 h2 h3
      rcases Nat.lt_or_ge t msgs.length with ht | ht
      · rw [drainLoop, Pop_freshPushedPopped msgs t h1 ht]
        simp only
        rw [ih (t + 1) msgs h1 (by omega) (by omega)]
        rw [drop_eq_getD_cons msgs default t ht]
        simp [List.flatMap_cons]
      · have ht2 : t = msgs.length := by omega
        subst ht2
        rw [drainLoop, Pop_freshPushedPopped_empty msgs h1]
        simp [List.drop_length]

/-- C3: if N messages have been pushed (every Push completed
successfully) and Shutdown is called with no intervening drain, then
before Shutdown returns the worker's final drain pass has popped and
dispatched every one of them (with the log stream still open during the
drain; it is closed only after the worker is joined): the accumulated
events contain all N dispatches in order and the queue is empty. -/
theorem shutdown_drains_all (msgs : List Message) (s : ConsoleState) (fuel : Nat)
    (hlen : msgs.length ≤ BUFFER_SIZE) (hfuel : msgs.length < fuel)
    (hrun : s.running = true) (hq : s.queue = freshPushed msgs) :
    pushAll RingBuffer.init msgs =
      some (freshPushed msgs, List.replicate msgs.length true) ∧
    (Shutdown fuel s).events =
      s.events ++ msgs.flatMap (fun m => dispatchMessage s.logOpen m) ∧
    ((Shutdown fuel s).queue.Pop).2 = none ∧
    (Shutdown fuel s).running = false := by
  have hd := drainLoop_freshPushedPopped s.logOpen fuel 0 msgs hlen
    (by omega) (by omega)
  rw [freshPushed] at hq
  have hsh : Shutdown fuel s =
      { s with
        running := false
        queue := freshPushedPopped msgs msgs.length
        events := s.events ++ msgs.flatMap (fun m => dispatchMessage s.logOpen m)
        logOpen := false
        shutdownSeqs := s.shutdownSeqs + 1 } := by
    unfold Shutdown
    rw [hrun, if_pos rfl, hq, hd]
    simp
  refine ⟨pushAll_init msgs hlen, ?_, ?_, ?_⟩
  · rw [hsh]
  · rw [hsh]
    simp only
    rw [Pop_freshPushedPopped_empty msgs hlen]
  · rw [hsh]

/-- Witness for C3 at a one-message queue. -/
theorem shutdown_drains_all_witness :
    pushAll RingBuffer.init [PrintMsg "a"] =
      some (freshPushed [PrintMsg "a"], List.replicate 1 true) ∧
    (Shutdown 2 witnessConsole).events =
      [] ++ [PrintMsg "a"].flatMap (fun m => dispatchMessage true m) ∧
    ((Shutdown 2 witnessConsole).queue.Pop).2 = none ∧
    (Shutdown 2 witnessConsole).running = false :=
  shutdown_drains_all [PrintMsg "a"] witnessConsole 2
    (by norm_num [BUFFER_SIZE]) (by norm_num) rfl rfl

/-- C7: Initialize and Shutdown are idempotent: a second consecutive
Initialize is a no-op (the worker is started and the log opened exactly
once), and a second consecutive Shutdown is a no-op (the
stop/notify/join/close sequence is performed exactly once); neither
double call is an error. -/
theorem lifecycle_idempotent (s t : ConsoleState) (fuel : Nat)
    (hs : s.running = false) (ht : t.running = true) :
    Initialize (Initialize s) = Initialize s ∧
    (Initialize s).workerStarts = s.workerStarts + 1 ∧
    (Initialize s).logOpens = s.logOpens + 1 ∧
    Shutdown fuel (Shutdown fuel t) = Shutdown fuel t ∧
    (Shutdown fuel t).shutdownSeqs = t.shutdownSeqs + 1 := by
  refine ⟨?_, ?_, ?_, ?_, ?_⟩ <;>
    simp [Initialize, Shutdown, hs, ht]

/-- Witness for C7 at concrete states. -/
theorem lifecycle_idempotent_witness :
    Initialize (Initialize { witnessConsole with running := false }) =
      Initialize { witnessConsole with running := false } ∧
    Shutdown 1 (Shutdown 1 witnessConsole) = Shutdown 1 witnessConsole := by
  have h := lifecycle_idempotent { witnessConsole with running := false }
    witnessConsole 1 rfl rfl
  exact ⟨h.1, h.2.2.2.1⟩

theorem posFor_spec (T i : Nat) (hi : i < BUFFER_SIZE) :
    T ≤ posFor T i ∧ posFor T i < T + BUFFER_SIZE ∧
      posFor T i % BUFFER_SIZE = i % BUFFER_SIZE := by
  have hBS : BUFFER_SIZE = 4096 := rfl
  unfold posFor
  rw [hBS] at hi ⊢
  omega

theorem posFor_unique (T i p : Nat) (hi : i < BUFFER_SIZE) (h1 : T ≤ p)
    (h2 : p < T + BUFFER_SIZE) (h3 : p % BUFFER_SIZE = i % BUFFER_SIZE) :
    p = posFor T i := by
  simp only [posFor, BUFFER_SIZE] at *
  omega

theorem Inv_init : Inv RingBuffer.init := by
  refine ⟨0, 0, le_rfl, by omega, rfl, rfl, ?_⟩
  intro i hi
  have hBS : BUFFER_SIZE = 4096 := rfl
  have hW : WORD = 2 ^ 64 := rfl
  unfold slotOk posFor RingBuffer.init
  rw [hBS] at hi ⊢
  rw [hW]
  simp only
  rw [if_neg (by omega)]
  omega

theorem Push_inv (rb : RingBuffer) (m : Message) (h : Inv rb) :
    ∃ rb2 : RingBuffer, ∃ ok : Bool, rb.Push m = some (rb2, ok) ∧ Inv rb2 := by
  obtain ⟨H, T, hTH, hHT, hhead, htail, hslots⟩ := h
  have hBS : BUFFER_SIZE = 4096 := rfl
  have hW : WORD = 2 ^ 64 := rfl
  have hidx : (H % WORD) &&& BUFFER_MASK = H % BUFFER_SIZE := by
    rw [land_mask, hW, hBS]
    exact Nat.mod_mod_of_dvd H (by norm_num)
  have hiN : H % BUFFER_SIZE < BUFFER_SIZE := Nat.mod_lt _ (by rw [hBS]; norm_num)
  have hslot := hslots (H % BUFFER_SIZE) hiN
  rcases Nat.lt_or_ge H (T + BUFFER_SIZE) with hcase | hcase
  · -- free slot at the head position: the push succeeds
    have hp : H = posFor T (H % BUFFER_SIZE) :=
      posFor_unique T (H % BUFFER_SIZE) H hiN hTH hcase
        (Nat.mod_eq_of_lt hiN).symm
    have hfree : ¬ posFor T (H % BUFFER_SIZE) < H := by omega
    unfold slotOk at hslot
    rw [if_neg hfree, ← hp] at hslot
    unfold RingBuffer.Push
    simp only [hhead, hidx, hslot, signedDiff_self, if_pos]
    refine ⟨_, true, rfl, H + 1, T, by omega, by omega, ?_, htail, ?_⟩
    · show (H % WORD + 1) % WORD = (H + 1) % WORD
      rw [hW]
      omega
    · intro i hi
      by_cases hieq : i = H % BUFFER_SIZE
      · subst hieq
        unfold slotOk
        rw [if_pos (by omega)]
        dsimp only
        rw [Function.update_same, ← hp]
        show (H % WORD + 1) % WORD = (H + 1) % WORD
        rw [hW]
        omega
      · unfold slotOk
        dsimp only
        rw [Function.update_noteq hieq]
        have hsl := hslots i hi
        unfold slotOk at hsl
        have hpi := posFor_spec T i hi
        have hne : posFor T i ≠ H := by
          intro he
          apply hieq
          have h3 := hpi.2.2
          rw [he, Nat.mod_eq_of_lt hi] at h3
          omega
        by_cases hlt : posFor T i < H
        · rw [if_pos hlt] at hsl
          rw [if_pos (by omega)]
          exact hsl
        · rw [if_neg hlt] at hsl
          rw [if_neg (by omega)]
          exact hsl
  · -- buffer full: the push fails and leaves the state unchanged
    have hHeq : H = T + BUFFER_SIZE := by omega
    have hp : posFor T (H % BUFFER_SIZE) = T := by
      symm
      apply posFor_unique T (H % BUFFER_SIZE) T hiN le_rfl (by rw [hBS]; omega)
      rw [Nat.mod_eq_of_lt hiN, hHeq]
      simp only [BUFFER_SIZE]
      omega
    have hocc : posFor T (H % BUFFER_SIZE) < H := by
      rw [hp, hHeq, hBS]
      omega
    unfold slotOk at hslot
    rw [if_pos hocc, hp] at hslot
    have hdiff : signedDiff ((T + 1) % WORD) (H % WORD) = 1 - 4096 := by
      rw [hHeq, hBS]
      rw [signedDiff_eq (T + 1) (T + 4096) (by push_cast; omega) (by push_cast; omega)]
      push_cast
      ring
    unfold RingBuffer.Push
    simp only [hhead, hidx, hslot, hdiff]
    norm_num
    exact ⟨H, T, hTH, hHT, hhead, htail, hslots⟩

theorem Pop_inv (rb : RingBuffer) (h : Inv rb) : Inv (rb.Pop).1 := by
  obtain ⟨H, T, hTH, hHT, hhead, htail, hslots⟩ := h
  have hBS : BUFFER_SIZE = 4096 := rfl
  have hW : WORD = 2 ^ 64 := rfl
  have hidx : (T % WORD) &&& BUFFER_MASK = T % BUFFER_SIZE := by
    rw [land_mask, hW, hBS]
    exact Nat.mod_mod_of_dvd T (by norm_num)
  have hiN : T % BUFFER_SIZE < BUFFER_SIZE := Nat.mod_lt _ (by rw [hBS]; norm_num)
  have hslot := hslots (T % BUFFER_SIZE) hiN
  have hpT : posFor T (T % BUFFER_SIZE) = T := by
    symm
    apply posFor_unique T (T % BUFFER_SIZE) T hiN le_rfl (by rw [hBS]; omega)
    rw [Nat.mod_eq_of_lt hiN]
  have hpos1 : (T % WORD + 1) % WORD = (T + 1) % WORD := by
    rw [hW]
    omega
  rcases Nat.lt_or_ge T H with hlt | hge
  · -- queue nonempty: the pop succeeds
    unfold slotOk at hslot
    rw [hpT, if_pos hlt] at hslot
    unfold RingBuffer.Pop
    simp only [htail, hidx, hslot, hpos1, signedDiff_self, if_pos]
    refine ⟨H, T + 1, by omega, by omega, hhead, rfl, ?_⟩
    intro i hi
    by_cases hieq : i = T % BUFFER_SIZE
    · subst hieq
      have hp2 : posFor (T + 1) (T % BUFFER_SIZE) = T + BUFFER_SIZE := by
        symm
        apply posFor_unique (T + 1) (T % BUFFER_SIZE) (T + BUFFER_SIZE) hiN
          (by rw [hBS]; omega) (by omega)
        rw [Nat.mod_eq_of_lt hiN]
        simp only [BUFFER_SIZE]
        omega
      unfold slotOk
      rw [hp2, if_neg (by omega)]
      dsimp only
      rw [Function.update_same]
      show (T % WORD + BUFFER_SIZE) % WORD = (T + BUFFER_SIZE) % WORD
      rw [hW, hBS]
      omega
    · unfold slotOk
      dsimp only
      rw [Function.update_noteq hieq]
      have hsl := hslots i hi
      unfold slotOk at hsl
      have hpi := posFor_spec T i hi
      have hne : posFor T i ≠ T := by
        intro he
        apply hieq
        have h3 := hpi.2.2
        rw [he, Nat.mod_eq_of_lt hi] at h3
        omega
      have hp2 : posFor (T + 1) i = posFor T i := by
        symm
        apply posFor_unique (T + 1) i (posFor T i) hi (by omega) (by omega) hpi.2.2
      rw [hp2]
      exact hsl
  · -- queue empty (T = H): the pop fails and leaves the state unchanged
    unfold slotOk at hslot
    rw [hpT, if_neg (by omega)] at hslot
    have hdiff : signedDiff (T % WORD) ((T + 1) % WORD) = -1 := by
      rw [signedDiff_eq T (T + 1) (by push_cast; omega) (by push_cast; omega)]
      push_cast
      ring
    unfold RingBuffer.Pop
    simp only [htail, hidx, hslot, hpos1, hdiff]
    norm_num
    exact ⟨H, T, hTH, hHT, hhead, htail, hslots⟩

theorem runOps_inv (ops : List ConsoleOp) : Inv (runOps ops) := by
  unfold runOps
  have hgen : ∀ rb : RingBuffer, Inv rb → Inv (ops.foldl stepOp rb) := by
    induction ops with
    | nil => intro rb h; exact h
    | cons op ops ih =>
        intro rb h
        apply ih
        cases op with
        | push m =>
            obtain ⟨rb2, ok, heq, h2⟩ := Push_inv rb m h
            show Inv (stepOp rb (ConsoleOp.push m))
            simp only [stepOp, heq]
            exact h2
        | pop => exact Pop_inv rb h
  exact hgen RingBuffer.init Inv_init

/-- Counterexample to C10 as stated: after a single Push from the fresh
state, slot 0's sequence counter is 1 = index + generation + 1, which is
not its index plus a multiple of BUFFER_SIZE. -/
theorem ringBuffer_seq_claim_counterexample :
    ¬ claimedSlotSeqInv (runOps [ConsoleOp.push (PrintMsg "a")]) := by
  intro h
  obtain ⟨g, hg⟩ := h 0 (by norm_num [BUFFER_SIZE])
  have he : ((runOps [ConsoleOp.push (PrintMsg "a")]).buffer 0).sequence = 1 := rfl
  rw [he] at hg
  have hBS : BUFFER_SIZE = 4096 := rfl
  rw [hBS] at hg
  omega

/-- C10 (amended): in every sequential execution from a freshly
constructed buffer there are abstract unwrapped counters H and T with
T ≤ H ≤ T + BUFFER_SIZE whose reductions modulo 2^64 are the stored head
and tail (so tail never overtakes head and the buffer never holds more
than BUFFER_SIZE messages), and each slot's sequence counter equals,
modulo 2^64, its index plus a whole number of completed generations when
the slot is free — or that value plus one when the slot holds a
published, not-yet-consumed message. -/
theorem ringBuffer_invariant_amended (ops : List ConsoleOp) :
    ∃ H T : Nat, T ≤ H ∧ H ≤ T + BUFFER_SIZE ∧
      (runOps ops).head = H % WORD ∧ (runOps ops).tail = T % WORD ∧
      ∀ i : Nat, i < BUFFER_SIZE → ∃ g : Nat,
        ((runOps ops).buffer i).sequence = (i + g * BUFFER_SIZE) % WORD ∨
        ((runOps ops).buffer i).sequence = (i + g * BUFFER_SIZE + 1) % WORD := by
  obtain ⟨H, T, hTH, hHT, hhead, htail, hslots⟩ := runOps_inv ops
  refine ⟨H, T, hTH, hHT, hhead, htail, ?_⟩
  intro i hi
  have hsl := hslots i hi
  unfold slotOk at hsl
  have hpi := posFor_spec T i hi
  have hexp : i + posFor T i / BUFFER_SIZE * BUFFER_SIZE = posFor T i := by
    have h3 := hpi.2.2
    rw [Nat.mod_eq_of_lt hi] at h3
    have hBS : BUFFER_SIZE = 4096 := rfl
    rw [hBS] at h3 ⊢
    omega
  refine ⟨posFor T i / BUFFER_SIZE, ?_⟩
  rw [hexp]
  by_cases hlt : posFor T i < H
  · right
    rw [if_pos hlt] at hsl
    exact hsl
  · left
    rw [if_neg hlt] at hsl
    exact hsl

end Console
